import Mathlib

/-!
Verification development for the `tool_alfred` automation daemon.

The Lean definitions below are a shallow embedding of the Python sources:

* `src/app/utils/fs.py`       — glob matching, age check, unique target path
* `src/app/features/download_janitor.py` — classification table and scan cycle
* `src/app/features/dev_git_overview.py` — repo discovery, last-push heuristic, flags
* `src/app/main.py`           — supervisor exit behaviour

Machine-level details are modelled as follows: instants in time are integer
seconds (Python float timestamps never matter at sub-second granularity for
the claims below); filesystem state is an explicit value threaded through the
scan; `stat` outcomes, subprocess outcomes and move outcomes are explicit
data so that exception propagation is visible as an `Except` value.
-/

namespace ToolAlfred

/-! ## Characters and strings -/

/-- Lowercasing of a single character, as Python `str.lower` acts on the
ASCII range (the only range exercised by the classification table and the
reflog push-tag match). -/
def lowerChar (c : Char) : Char :=
  if 65 ≤ c.toNat ∧ c.toNat ≤ 90 then Char.ofNat (c.toNat + 32) else c

/-- Lowercase every character of a string (Python `str.lower`). -/
def strLower (s : String) : String :=
  ⟨s.data.map lowerChar⟩

/-- Decimal digit characters: `digitChar d` is the character for digit `d`. -/
def digitChar (d : Nat) : Char :=
  Char.ofNat (48 + d)

/-- Little-endian decimal digits of `n`, computed with explicit fuel so that
the definition is structurally recursive and kernel-reducible. -/
def digitsAux : Nat → Nat → List Nat
  | 0, _ => []
  | fuel + 1, n => if n = 0 then [] else (n % 10) :: digitsAux fuel (n / 10)

/-- Little-endian decimal digits of `n`; `n` itself is always enough fuel. -/
def decDigits (n : Nat) : List Nat :=
  digitsAux n n

/-- Decimal rendering of a natural number, as Python `str(i)` renders the
probe counter in `unique_target_path` (f-string `{i}`). -/
def natRepr (n : Nat) : String :=
  if n = 0 then "0" else ⟨(decDigits n).reverse.map digitChar⟩

/-- Value of a little-endian digit list. -/
def digitsVal : List Nat → Nat
  | [] => 0
  | d :: ds => d + 10 * digitsVal ds

/-! ## Python `pathlib` stem/suffix

`PurePath.suffix` is `name[i:]` where `i = name.rfind('.')` provided
`0 < i < len(name) - 1`, and empty otherwise; `PurePath.stem` is the
complementary `name[:i]` (or the whole name). -/

/-- Index of the last `'.'` in a character list, if any. -/
def lastDotIdx (l : List Char) : Option Nat :=
  match l.reverse.findIdx? (fun c => c = '.') with
  | none => none
  | some j => some (l.length - 1 - j)

/-- Python `PurePath(name).suffix` for a plain file name. -/
def path_suffix (name : String) : String :=
  match lastDotIdx name.data with
  | none => ""
  | some i => if 0 < i ∧ i < name.data.length - 1 then ⟨name.data.drop i⟩ else ""

/-- Python `PurePath(name).stem` for a plain file name. -/
def path_stem (name : String) : String :=
  match lastDotIdx name.data with
  | none => name
  | some i => if 0 < i ∧ i < name.data.length - 1 then ⟨name.data.take i⟩ else name

/-- Python `str.lstrip(".")`: drop every leading dot. -/
def lstripDots (s : String) : String :=
  ⟨s.data.dropWhile (fun c => c = '.')⟩

/-! ## `fnmatch` glob matching (src/app/utils/fs.py, `matches_any`)

The ignore patterns used by the janitor only exercise `*`, `?` and literal
characters, which is what this matcher implements (fnmatch character
classes are not used by any configuration in the repository). The explicit
fuel makes the definition structurally recursive; `pat.length + s.length`
is always sufficient. -/

def globMatchAux : Nat → List Char → List Char → Bool
  | 0, p, s => p.isEmpty && s.isEmpty
  | _ + 1, [], s => s.isEmpty
  | fuel + 1, c :: p, s =>
    if c = '*' then
      (match s with
       | [] => globMatchAux fuel p []
       | _ :: s' => globMatchAux fuel p s || globMatchAux fuel (c :: p) s')
    else
      match s with
      | [] => false
      | d :: s' => (c = '?' || c = d) && globMatchAux fuel p s'

/-- `fnmatch.fnmatch name pat` restricted to `*`/`?`/literal patterns. -/
def globMatch (pat name : String) : Bool :=
  globMatchAux (pat.data.length + name.data.length) pat.data name.data

/-- Python `matches_any` from `src/app/utils/fs.py`. -/
def matches_any (name : String) (patterns : List String) : Bool :=
  patterns.any (fun p => globMatch p name)

/-! ## `unique_target_path` (src/app/utils/fs.py, lines 44-56)

A destination directory is modelled by the list of file names that currently
exist in it; `(dest_dir / x).exists()` becomes `x ∈ existing`. The `while`
loop of the source probes `f"{stem} ({i}){suffix}"` for `i = 2, 3, ...`; it
is embedded with explicit fuel, and `existing.length + 1` candidates always
contain a free one (proved below), so the fuel never runs out. -/

/-- Candidate name `f"{stem} ({i}){suffix}"` from the probe loop. -/
def altName (stm sfx : String) (i : Nat) : String :=
  stm ++ " (" ++ natRepr i ++ ")" ++ sfx

/-- Probe loop of `unique_target_path`: first free candidate at index `≥ i`. -/
def probeAlt (existing : List String) (stm sfx : String) : Nat → Nat → Option String
  | _, 0 => none
  | i, fuel + 1 =>
    if altName stm sfx i ∈ existing then probeAlt existing stm sfx (i + 1) fuel
    else some (altName stm sfx i)

/-- Python `unique_target_path(dest_dir, filename)`, with the destination
directory contents given as `existing`. -/
def unique_target_path (existing : List String) (filename : String) : String :=
  if filename ∈ existing then
    (probeAlt existing (path_stem filename) (path_suffix filename) 2
      (existing.length + 1)).getD filename
  else filename

/-! ## Classification table (src/app/features/download_janitor.py, `_classify`) -/

def imagesExts : List String :=
  ["png", "jpg", "jpeg", "gif", "webp", "svg", "heic", "tiff", "bmp"]

def videosExts : List String :=
  ["mp4", "mov", "mkv", "avi", "webm", "m4v"]

def audioExts : List String :=
  ["mp3", "m4a", "aac", "wav", "flac", "ogg"]

def docsExts : List String :=
  ["pdf", "doc", "docx", "xls", "xlsx", "ppt", "pptx", "txt", "md", "rtf", "csv", "mdx"]

def archivesExts : List String :=
  ["zip", "rar", "7z", "tar", "gz", "bz2", "xz"]

def codeExts : List String :=
  ["js", "jsx", "ts", "tsx", "py", "json", "yml", "yaml", "toml", "ini", "sql", "sh"]

def appsExts : List String :=
  ["dmg", "pkg"]

/-- Closed set of categories of the data model. -/
def categories : List String :=
  ["images", "videos", "audio", "docs", "archives", "code", "apps", "other"]

/-- Body of `_classify` applied to an extension string: lowercase it, strip
leading dots (`path.suffix.lower().lstrip(".")`), then look it up in the
table, defaulting to `"other"`. -/
def categoryOfExt (ext : String) : String :=
  let e := lstripDots (strLower ext)
  if imagesExts.contains e then "images"
  else if videosExts.contains e then "videos"
  else if audioExts.contains e then "audio"
  else if docsExts.contains e then "docs"
  else if archivesExts.contains e then "archives"
  else if codeExts.contains e then "code"
  else if appsExts.contains e then "apps"
  else "other"

/-- Python `DownloadsJanitor._classify(path)` for a plain file name. -/
def classify (name : String) : String :=
  categoryOfExt (path_suffix name)

/-! ## Downloads Janitor scan cycle (`_scan_once`, lines 56-102)

The filesystem state relevant to one scan is: the immediate entries of the
root directory (each with its name, directory bit and `stat` outcome), and
the set of already-existing files inside the category folders, modelled as
`(folder name, file name)` pairs. A move failure of `atomic_move` is
modelled as a per-entry `moveFails` bit (the exception is caught by the
source and only logged). A `stat` outcome other than success or
file-not-found is an uncaught exception and aborts the scan, which the
embedding represents by `Except.error`. -/

/-- Outcome of `path.stat()` for one entry. -/
inductive StatResult where
  | ok (mtime : Int)
  | fileNotFound
  | statError
deriving DecidableEq

/-- One immediate entry of the root directory. -/
structure Entry where
  name : String
  isDir : Bool
  stat : StatResult
  moveFails : Bool
deriving DecidableEq

/-- Janitor settings relevant to `_scan_once` (`JanitorSettings` dataclass). -/
structure JanitorSettings where
  minFileAgeSeconds : Int
  dryRun : Bool
  ignore : List String
  protectedFolders : List String
  folders : List (String × String)
deriving DecidableEq

/-- Python `is_recent` from `src/app/utils/fs.py`: a successful `stat`
compares the age against the threshold, `FileNotFoundError` is treated as
recent, and any other `stat` failure propagates as an exception. -/
def is_recent (st : StatResult) (now minAge : Int) : Except Unit Bool :=
  match st with
  | .ok m => .ok (decide (now - m < minAge))
  | .fileNotFound => .ok true
  | .statError => .error ()

/-- Python `is_in_top_folder` from `src/app/utils/fs.py`, specialised to the
way `_scan_once` calls it: every scanned entry is a direct child of the root,
so `path.relative_to(root).parts` is the one-element list holding the entry
name, and the check is membership of that name in the protected set. -/
def is_in_top_folder (name : String) (protectedFolders : List String) : Bool :=
  protectedFolders.contains name

/-- Destination folder lookup `cfg.folders.get(key, cfg.folders["other"])`.
Python evaluates the default argument `cfg.folders["other"]` before calling
`.get`, so a missing `"other"` key raises `KeyError` regardless of whether
`key` itself is present; the dictionary is modelled as an association list. -/
def destFolder (folders : List (String × String)) (key : String) : Except Unit String :=
  match List.lookup "other" folders with
  | none => .error ()
  | some other => .ok ((List.lookup key folders).getD other)

/-- Names currently existing inside one category folder. -/
def existingIn (subFiles : List (String × String)) (folder : String) : List String :=
  subFiles.filterMap (fun p => if p.1 = folder then some p.2 else none)

/-- Move report of one scan: `moved_count`, `skipped`, and the `moves` list
of `(source name, destination folder, destination name)` records. -/
structure ScanReport where
  movedCount : Nat
  skipped : Nat
  moves : List (String × String × String)
deriving DecidableEq

/-- Scan accumulator: category-folder contents plus the report so far. -/
structure ScanAcc where
  subFiles : List (String × String)
  report : ScanReport
deriving DecidableEq

/-- Increment `skipped` (the three `skipped += 1; continue` branches). -/
def skipOne (acc : ScanAcc) : ScanAcc :=
  { acc with report := { acc.report with skipped := acc.report.skipped + 1 } }

/-- Record a (possibly simulated) move: count it, append the move record,
and, when `mutate` is true (live mode, move succeeded), add the destination
file to the folder contents. -/
def recordMove (acc : ScanAcc) (src folder dest : String) (mutate : Bool) : ScanAcc :=
  { subFiles := if mutate then (folder, dest) :: acc.subFiles else acc.subFiles,
    report :=
      { movedCount := acc.report.movedCount + 1,
        skipped := acc.report.skipped,
        moves := acc.report.moves ++ [(src, folder, dest)] } }

/-- Body of the `for entry in root.iterdir()` loop of `_scan_once`. -/
def processEntry (cfg : JanitorSettings) (now : Int) (acc : ScanAcc) (e : Entry) :
    Except Unit ScanAcc :=
  if e.isDir then .ok acc
  else if matches_any e.name cfg.ignore then .ok (skipOne acc)
  else
    match is_recent e.stat now cfg.minFileAgeSeconds with
    | .error u => .error u
    | .ok true => .ok (skipOne acc)
    | .ok false =>
      if is_in_top_folder e.name cfg.protectedFolders then .ok (skipOne acc)
      else
        match destFolder cfg.folders (classify e.name) with
        | .error u => .error u
        | .ok folder =>
          let dest := unique_target_path (existingIn acc.subFiles folder) e.name
          if cfg.dryRun then .ok (recordMove acc e.name folder dest false)
          else if e.moveFails then .ok acc
          else .ok (recordMove acc e.name folder dest true)

/-- Python `DownloadsJanitor._scan_once`: fold the loop body over the
entries of the root directory, starting from the initial folder contents and
an empty report. An uncaught per-entry exception aborts the whole cycle. -/
def scan_once (cfg : JanitorSettings) (now : Int) (entries : List Entry)
    (subFiles : List (String × String)) : Except Unit ScanAcc :=
  entries.foldlM (processEntry cfg now) ⟨subFiles, ⟨0, 0, []⟩⟩

/-- Default category-to-folder map of `_load_settings` (lines 184-193). -/
def defaultFolders : List (String × String) :=
  [("images", "Images"), ("videos", "Videos"), ("audio", "Audio"),
   ("docs", "Docs"), ("archives", "Archives"), ("code", "Code"),
   ("apps", "Apps"), ("other", "Other")]

/-- Boolean value the age check yields when it does not raise (used to state
which entries the scan counts as skipped). -/
def isRecentB (st : StatResult) (now minAge : Int) : Bool :=
  match st with
  | .ok m => decide (now - m < minAge)
  | .fileNotFound => true
  | .statError => false

/-- Does `_scan_once` count this entry as skipped — one of the three
`skipped += 1` branches (ignore pattern, minimum age, protected folder)?
Directory entries are passed over without counting. -/
def skipsEntry (cfg : JanitorSettings) (now : Int) (e : Entry) : Bool :=
  !e.isDir &&
    (matches_any e.name cfg.ignore ||
      isRecentB e.stat now cfg.minFileAgeSeconds ||
      is_in_top_folder e.name cfg.protectedFolders)

/-- Does `_scan_once` count this entry as moved? Every non-skipped file in
dry-run mode; in live mode only those whose `atomic_move` does not raise. -/
def movesEntry (cfg : JanitorSettings) (now : Int) (e : Entry) : Bool :=
  !e.isDir && !matches_any e.name cfg.ignore &&
    !isRecentB e.stat now cfg.minFileAgeSeconds &&
    !is_in_top_folder e.name cfg.protectedFolders &&
    (cfg.dryRun || !e.moveFails)

/-- Projection of a scan report to the data the dry-run comparison
preserves: both counters and the source-name sequence of the move records. -/
def reportProj (r : ScanReport) : Nat × Nat × List String :=
  (r.movedCount, r.skipped, r.moves.map (fun m => m.1))

/-- The same janitor settings with the dry-run bit replaced. -/
def setDryRun (cfg : JanitorSettings) (b : Bool) : JanitorSettings :=
  ⟨cfg.minFileAgeSeconds, b, cfg.ignore, cfg.protectedFolders, cfg.folders⟩

/-- Relation between a dry-run scan outcome and a live scan outcome started
from folder contents `sub0`: both abort, or both succeed with the same
report projection while the dry run has not touched the folder contents. -/
def dlRel (sub0 : List (String × String)) :
    Except Unit ScanAcc → Except Unit ScanAcc → Prop
  | .ok aD, .ok aL => reportProj aD.report = reportProj aL.report ∧ aD.subFiles = sub0
  | .error _, .error _ => True
  | _, _ => False

/-- Concrete settings for the dry-run/live comparison: instantaneous age
threshold, no ignore patterns, docs and other categories configured. -/
def cfgC1 : JanitorSettings :=
  ⟨0, false, [], ["Docs", "Other"], [("docs", "Docs"), ("other", "Other")]⟩

/-- Concrete root entries whose names collide after one live move. -/
def entsC1 : List Entry :=
  [⟨"a.txt", false, .ok 0, false⟩, ⟨"a (2).txt", false, .ok 0, false⟩]

/-- Concrete settings exercising every skip branch of the scan. -/
def cfgC9 : JanitorSettings :=
  ⟨60, false, [".*"], ["Docs"], defaultFolders⟩

/-- Concrete entries: a directory, an ignored dotfile, a movable PDF, and a
PDF whose live move fails. -/
def entsC9 : List Entry :=
  [⟨"sub", true, .ok 0, false⟩, ⟨".DS_Store", false, .ok 0, false⟩,
   ⟨"a.pdf", false, .ok 0, false⟩, ⟨"b.pdf", false, .ok 0, true⟩]

/-- Result of scanning `entsC9` under `cfgC9` at instant 1000. -/
def accC9 : ScanAcc :=
  ⟨[("Docs", "a.pdf")], ⟨1, 1, [("a.pdf", "Docs", "a.pdf")]⟩⟩

/-- Concrete directory tree for the discovery witness: a repository at the
top level, a nested repository below it (never reached), a repository under
an ignored directory, and one at depth two. -/
def dirsW : List (List String) :=
  [["a"], ["a", ".git"], ["a", "b"], ["a", "b", ".git"],
   ["nm"], ["nm", "c"], ["nm", "c", ".git"],
   ["d"], ["d", "e"], ["d", "e", ".git"]]

/-! ## Last-push heuristic (src/app/features/dev_git_overview.py, lines 103-144)

The three read-only git sub-queries are inputs: `none` models a failed
`_run_git` call (raised exception or nonzero exit status), `some s` models a
successful call whose stripped stdout is `s`. Timestamp parsing
(`_parse_git_datetime`) is passed in as a function so that the heuristic's
control flow is verified independently of ISO-8601 parsing. -/

/-- Split a character list at the first occurrence of `c`
(Python `line.split(c, 1)` restricted to the two-part result). -/
def splitFirst (c : Char) : List Char → Option (List Char × List Char)
  | [] => none
  | x :: xs =>
    if x = c then some ([], xs)
    else
      match splitFirst c xs with
      | none => none
      | some (a, b) => some (x :: a, b)

/-- Split a character list on every occurrence of `c` (used for line
splitting of the stripped reflog output). -/
def splitOnChar (c : Char) : List Char → List (List Char)
  | [] => [[]]
  | x :: xs =>
    match splitOnChar c xs with
    | [] => [[]]
    | r :: rs => if x = c then [] :: r :: rs else (x :: r) :: rs

/-- Does `s` start with `pat`? -/
def startsWithChars : List Char → List Char → Bool
  | _, [] => true
  | [], _ :: _ => false
  | c :: cs, d :: ds => c = d && startsWithChars cs ds

/-- Contiguous-substring test (Python `pat in s`). -/
def containsSub : List Char → List Char → Bool
  | s, pat =>
    startsWithChars s pat ||
      (match s with
       | [] => false
       | _ :: cs => containsSub cs pat)

/-- Scan of the reflog lines: the first line that contains `'|'` and whose
message part (after the first `'|'`) lowercased contains the substring
`"update by push"` yields its timestamp part. -/
def pushLineTimestamp : List (List Char) → Option String
  | [] => none
  | l :: ls =>
    match splitFirst '|' l with
    | none => pushLineTimestamp ls
    | some (w, msg) =>
      if containsSub (msg.map lowerChar) ("update by push".data) then some ⟨w⟩
      else pushLineTimestamp ls

/-- Push-tagged timestamp of the reflog sub-query result; `if reflog:` makes
both a failed query and an empty output skip the scan. -/
def reflogPush (reflog : Option String) : Option String :=
  match reflog with
  | none => none
  | some s => if s = "" then none else pushLineTimestamp (splitOnChar '\n' s.data)

/-- Python `DevGitOverview._resolve_last_push`, as a function of the three
sub-query outcomes: upstream-name query, reflog query, upstream-tip-date
query. Returns the display string and the optional parsed timestamp. -/
def resolve_last_push (parse : String → Option Int)
    (upstream reflog tipDate : Option String) : String × Option Int :=
  match upstream with
  | none => ("no upstream", none)
  | some _ =>
    match reflogPush reflog with
    | some w => (w, parse w)
    | none =>
      match tipDate with
      | some d => if d = "" then ("unknown", none) else (d, parse d)
      | none => ("unknown", none)

/-! ## Git fleet discovery (`_discover_repositories`, lines 63-83)

The directory tree under the configured root is modelled as the list of
directories that exist, each as its path relative to the root (a list of
name components; the root itself is `[]`). `os.walk`'s top-down traversal
with in-place pruning of `dirnames` becomes a recursion over child paths;
the explicit fuel (one more than the longest path) is always sufficient
because each descent step extends the path by one existing component. -/

/-- Immediate subdirectory names of `p` (the pruned-or-kept `dirnames`). -/
def childNames (dirs : List (List String)) (p : List String) : List String :=
  dirs.filterMap (fun q =>
    if q.length = p.length + 1 ∧ q.take p.length = p then (q.drop p.length).head?
    else none)

/-- Walk from one directory: returns the recorded repository paths and the
visited directory paths, in traversal order. A directory whose depth
exceeds a non-negative `max_depth` is visited but contributes nothing and
is not descended into; a directory directly containing `".git"` is recorded
and not descended into; otherwise children named in `ignore_dirs` are
removed from the descent set. -/
def walkFromV (dirs : List (List String)) (maxDepth : Int) (ignoreDirs : List String) :
    Nat → Nat → List String → List (List String) × List (List String)
  | 0, _, _ => ([], [])
  | fuel + 1, depth, p =>
    if 0 ≤ maxDepth ∧ maxDepth < (depth : Int) then ([], [p])
    else if (childNames dirs p).contains ".git" then ([p], [p])
    else
      let cs := (childNames dirs p).filter (fun n => ¬ ignoreDirs.contains n)
      let sub := cs.map (fun n => walkFromV dirs maxDepth ignoreDirs fuel (depth + 1) (p ++ [n]))
      ((sub.map Prod.fst).flatten, p :: (sub.map Prod.snd).flatten)

/-- Longest path length among the existing directories. -/
def maxPathLen (dirs : List (List String)) : Nat :=
  (dirs.map List.length).foldr max 0

/-- Python `DevGitOverview._discover_repositories`: repository roots found
by the walk starting at the root (relative path `[]`, depth 0). -/
def discover_repositories (dirs : List (List String)) (maxDepth : Int)
    (ignoreDirs : List String) : List (List String) :=
  (walkFromV dirs maxDepth ignoreDirs (maxPathLen dirs + 1) 0 []).1

/-- Directories visited by the same walk (the `dirpath` values `os.walk`
yields, i.e. the directories whose contents are listed). -/
def visitedDirs (dirs : List (List String)) (maxDepth : Int)
    (ignoreDirs : List String) : List (List String) :=
  (walkFromV dirs maxDepth ignoreDirs (maxPathLen dirs + 1) 0 []).2

/-- Strict ancestor order on relative paths. -/
def isAncestor (p q : List String) : Prop :=
  p.length < q.length ∧ q.take p.length = p

/-! ## Status flags (`_build_flags`, lines 206-218) -/

/-- Per-repository status record (`RepoStatus` dataclass), with the
timestamp as integer seconds (`last_push_at` of the source; `none` models
`None`). The display string of the source is irrelevant to the flags. -/
structure RepoStatus where
  project : String
  branch : String
  lastPush : String
  lastPushAt : Option Int
  dirtyCount : Nat
deriving DecidableEq

/-- Python `DevGitOverview._build_flags(status, now_utc)`. `age` is the
elapsed time `now - last_push_at` in seconds; `timedelta(days=7)` is 604800
seconds and `timedelta(hours=24)` is 86400 seconds, both compared strictly. -/
def build_flags (status : RepoStatus) (now : Int) : String :=
  match status.lastPushAt with
  | none => "-"
  | some t =>
    let age := now - t
    let flags :=
      (if age > 604800 then ["stale>7d"] else []) ++
        (if age > 86400 ∧ status.dirtyCount > 0 then ["dirty+24h"] else [])
    if flags = [] then "-" else String.intercalate ", " flags

/-! ## Supervisor exit behaviour (src/app/main.py)

The claims about the supervisor concern its terminal behaviour: what has
been logged and with which status the process exits once the liveness poll
finds no live worker. Each worker is modelled by whether its `run_forever`
terminates by raising (`crashes = true`) or by returning. -/

/-- One feature worker thread. -/
structure Worker where
  key : String
  crashes : Bool
deriving DecidableEq

/-- Python `_run_feature_worker`: an exception escaping `run_forever` is
caught at the thread boundary and logged with the feature key; the log
lines this worker has emitted when it terminates. -/
def run_feature_worker (w : Worker) : List String :=
  if w.crashes then ["Feature crashed: " ++ w.key] else []

/-- Terminal outcome of `main`'s liveness loop once every worker thread has
terminated: each crash was logged individually by its worker, `main` logs
"All features stopped. Exiting." at error level and then executes `return`,
so the Python process exits with status 0. Result: (log lines, exit status). -/
def superviseOutcome (workers : List Worker) : List String × Nat :=
  ((workers.map run_feature_worker).flatten ++ ["All features stopped. Exiting."], 0)

deriving instance DecidableEq for Except

/-! ## Helper lemmas -/

theorem digitsAux_val (fuel : Nat) : ∀ n, n ≤ fuel → digitsVal (digitsAux fuel n) = n := by
  induction fuel with
  | zero => intro n hn; simp [digitsAux, digitsVal]; omega
  | succ fuel ih =>
    intro n hn
    by_cases h0 : n = 0
    · simp [digitsAux, h0, digitsVal]
    · have hdiv : n / 10 ≤ fuel := by
        have : n / 10 < n := Nat.div_lt_self (Nat.pos_of_ne_zero h0) (by norm_num)
        omega
      simp only [digitsAux, h0, if_false, digitsVal, ih (n / 10) hdiv]
      omega

theorem decDigits_val (n : Nat) : digitsVal (decDigits n) = n :=
  digitsAux_val n n (Nat.le_refl n)

theorem decDigits_injective : Function.Injective decDigits := by
  intro m n h
  have := decDigits_val m
  rw [h, decDigits_val] at this
  omega

theorem digitsAux_lt_ten (fuel : Nat) : ∀ n, ∀ d ∈ digitsAux fuel n, d < 10 := by
  induction fuel with
  | zero => intro n d hd; simp [digitsAux] at hd
  | succ fuel ih =>
    intro n d hd
    by_cases h0 : n = 0
    · simp [digitsAux, h0] at hd
    · simp only [digitsAux, h0, if_false, List.mem_cons] at hd
      rcases hd with h | h
      · omega
      · exact ih (n / 10) d h

theorem digitChar_inj_lt : ∀ d1 < 10, ∀ d2 < 10, digitChar d1 = digitChar d2 → d1 = d2 := by
  decide

theorem map_digitChar_inj :
    ∀ l1 l2 : List Nat, (∀ d ∈ l1, d < 10) → (∀ d ∈ l2, d < 10) →
      l1.map digitChar = l2.map digitChar → l1 = l2 := by
  intro l1
  induction l1 with
  | nil => intro l2 _ _ h; cases l2 <;> simp_all
  | cons a l ih =>
    intro l2 h1 h2 h
    cases l2 with
    | nil => simp at h
    | cons b m =>
      simp only [List.map_cons, List.cons.injEq] at h
      have ha : a = b :=
        digitChar_inj_lt a (h1 a (by simp)) b (h2 b (by simp)) h.1
      have hm : l = m :=
        ih m (fun d hd => h1 d (by simp [hd])) (fun d hd => h2 d (by simp [hd])) h.2
      simp [ha, hm]

theorem natRepr_ne_zero_str : ∀ n : Nat, n ≠ 0 → natRepr n ≠ "0" := by
  intro n hn h
  simp only [natRepr, hn, if_false] at h
  have hd : List.map digitChar (decDigits n).reverse = ['0'] := by
    have := congrArg String.data h
    simpa using this
  have hval := decDigits_val n
  cases hlist : decDigits n with
  | nil => rw [hlist, digitsVal] at hval; omega
  | cons d ds =>
    rw [hlist] at hd
    have hlen := congrArg List.length hd
    simp at hlen
    subst hlen
    simp at hd
    have hd10 : d < 10 := digitsAux_lt_ten n n d (by
      rw [show digitsAux n n = decDigits n from rfl, hlist]; simp)
    have hd0 : d = 0 := digitChar_inj_lt d hd10 0 (by norm_num) (hd.trans (by decide))
    rw [hlist, hd0] at hval
    simp [digitsVal] at hval
    omega

theorem natRepr_injective : Function.Injective natRepr := by
  intro m n h
  by_cases hm : m = 0 <;> by_cases hn : n = 0
  · omega
  · exfalso
    subst hm
    exact natRepr_ne_zero_str n hn (by rw [← h]; rfl)
  · exfalso
    subst hn
    exact natRepr_ne_zero_str m hm h
  · simp only [natRepr, hm, hn, if_false] at h
    have hd := congrArg String.data h
    simp only [String.data] at hd
    have hrev := List.reverse_injective
      (map_digitChar_inj (decDigits m).reverse (decDigits n).reverse
        (fun d hd' => digitsAux_lt_ten m m d (List.mem_reverse.mp hd'))
        (fun d hd' => digitsAux_lt_ten n n d (List.mem_reverse.mp hd'))
        hd)
    exact decDigits_injective hrev

theorem altName_inj (stm sfx : String) {i j : Nat}
    (h : altName stm sfx i = altName stm sfx j) : i = j := by
  have hd := congrArg String.data h
  simp only [altName, String.data_append, List.append_assoc] at hd
  have h1 := List.append_cancel_left hd
  have h2 := List.append_cancel_left h1
  have h3 : (natRepr i).data = (natRepr j).data := List.append_cancel_right h2
  exact natRepr_injective (String.ext h3)

theorem exists_free_alt (existing : List String) (stm sfx : String) (start : Nat) :
    ∃ k, k < existing.length + 1 ∧ altName stm sfx (start + k) ∉ existing := by
  by_contra hc
  push_neg at hc
  have hmem : ∀ k : Fin (existing.length + 1),
      altName stm sfx (start + (k : Nat)) ∈ existing.toFinset := by
    intro k
    exact List.mem_toFinset.mpr (hc (k : Nat) k.isLt)
  have hinj : Set.InjOn
      (fun k : Fin (existing.length + 1) => altName stm sfx (start + (k : Nat)))
      ↑(Finset.univ : Finset (Fin (existing.length + 1))) := by
    intro a _ b _ hab
    have := altName_inj stm sfx hab
    exact Fin.ext (by omega)
  have hcard := Finset.card_le_card_of_injOn
    (fun k : Fin (existing.length + 1) => altName stm sfx (start + (k : Nat)))
    (fun a _ => hmem a) hinj
  have hlen := List.toFinset_card_le existing
  simp only [Finset.card_univ, Fintype.card_fin] at hcard
  omega

theorem probeAlt_spec (existing : List String) (stm sfx : String) :
    ∀ fuel start, (∃ k, k < fuel ∧ altName stm sfx (start + k) ∉ existing) →
      ∃ i, probeAlt existing stm sfx start fuel = some (altName stm sfx i) ∧
        start ≤ i ∧ altName stm sfx i ∉ existing ∧
        ∀ j, start ≤ j → j < i → altName stm sfx j ∈ existing := by
  intro fuel
  induction fuel with
  | zero =>
    rintro start ⟨k, hk, -⟩
    omega
  | succ fuel ih =>
    rintro start ⟨k, hk, hfree⟩
    by_cases hmem : altName stm sfx start ∈ existing
    · have hk0 : k ≠ 0 := by
        rintro rfl
        simp only [Nat.add_zero] at hfree
        exact hfree hmem
      obtain ⟨i, hp, hle, hfr, hmin⟩ := ih (start + 1)
        ⟨k - 1, by omega, by rw [show start + 1 + (k - 1) = start + k by omega]; exact hfree⟩
      refine ⟨i, ?_, by omega, hfr, ?_⟩
      · simp only [probeAlt, hmem, if_true]
        exact hp
      · intro j hj hji
        rcases Nat.eq_or_lt_of_le hj with rfl | hlt
        · exact hmem
        · exact hmin j (by omega) hji
    · refine ⟨start, ?_, Nat.le_refl _, hmem, by omega⟩
      simp only [probeAlt, hmem, if_false]

/-- Full functional specification of `unique_target_path`: the result never
collides with an existing name; a free plain name is returned as is; on
collision the result is the candidate with the least free index `i ≥ 2`. -/
theorem unique_target_path_spec (existing : List String) (filename : String) :
    unique_target_path existing filename ∉ existing ∧
    (filename ∉ existing → unique_target_path existing filename = filename) ∧
    (filename ∈ existing → ∃ i, 2 ≤ i ∧
      unique_target_path existing filename
        = altName (path_stem filename) (path_suffix filename) i ∧
      altName (path_stem filename) (path_suffix filename) i ∉ existing ∧
      ∀ j, 2 ≤ j → j < i →
        altName (path_stem filename) (path_suffix filename) j ∈ existing) := by
  by_cases hmem : filename ∈ existing
  · obtain ⟨k, hk, hfree⟩ :=
      exists_free_alt existing (path_stem filename) (path_suffix filename) 2
    obtain ⟨i, hp, hle, hfr, hmin⟩ :=
      probeAlt_spec existing (path_stem filename) (path_suffix filename)
        (existing.length + 1) 2 ⟨k, hk, hfree⟩
    refine ⟨?_, fun hno => absurd hmem hno, fun _ => ⟨i, hle, ?_, hfr, hmin⟩⟩
    · simp only [unique_target_path, hmem, if_true, hp, Option.getD_some]
      exact hfr
    · simp only [unique_target_path, hmem, if_true, hp, Option.getD_some]
  · refine ⟨?_, fun _ => ?_, fun hyes => absurd hyes hmem⟩
    · simp [unique_target_path, hmem]
    · simp [unique_target_path, hmem]

/-- Evaluation of `build_flags` for a non-null timestamp, with the two
strict threshold conditions made explicit. -/
theorem build_flags_some (st : RepoStatus) (t now : Int) (h : st.lastPushAt = some t) :
    build_flags st now =
      (if 604800 < now - t then
        (if 0 < st.dirtyCount then "stale>7d, dirty+24h" else "stale>7d")
      else if 86400 < now - t ∧ 0 < st.dirtyCount then "dirty+24h" else "-") := by
  simp only [build_flags, h, gt_iff_lt]
  by_cases h1 : 604800 < now - t <;> by_cases h2 : 86400 < now - t ∧ 0 < st.dirtyCount
  · have hd : 0 < st.dirtyCount := h2.2
    simp [h1, h2, hd]
    decide
  · have h86 : 86400 < now - t := by omega
    have hd : ¬ 0 < st.dirtyCount := fun hdd => h2 ⟨h86, hdd⟩
    simp [h1, h2, hd]
    decide
  · simp [h1, h2, h2.1, h2.2]
    decide
  · simp [h1, h2]

/-- What one loop iteration of `_scan_once` contributes to the counters:
one skip, one move, or nothing, as decided entry-locally. -/
theorem processEntry_ok_counts (cfg : JanitorSettings) (now : Int) (acc : ScanAcc)
    (e : Entry) (acc' : ScanAcc) (h : processEntry cfg now acc e = .ok acc') :
    acc'.report.skipped = acc.report.skipped + (if skipsEntry cfg now e then 1 else 0) ∧
    acc'.report.movedCount
        = acc.report.movedCount + (if movesEntry cfg now e then 1 else 0) ∧
    acc'.report.moves.length
        = acc.report.moves.length + (if movesEntry cfg now e then 1 else 0) := by
  cases hdir : e.isDir with
  | true =>
    simp [processEntry, hdir] at h
    subst h
    simp [skipsEntry, movesEntry, hdir]
  | false =>
    cases hig : matches_any e.name cfg.ignore with
    | true =>
      simp [processEntry, hdir, hig] at h
      subst h
      simp [skipsEntry, movesEntry, hdir, hig, skipOne]
    | false =>
      cases hstat : e.stat with
      | statError => simp [processEntry, hdir, hig, hstat, is_recent] at h
      | fileNotFound =>
        simp [processEntry, hdir, hig, hstat, is_recent] at h
        subst h
        simp [skipsEntry, movesEntry, isRecentB, hdir, hig, hstat, skipOne]
      | ok m =>
        by_cases hage : now - m < cfg.minFileAgeSeconds
        · simp [processEntry, hdir, hig, hstat, is_recent, hage] at h
          subst h
          simp [skipsEntry, movesEntry, isRecentB, hdir, hig, hstat, hage, skipOne]
        · cases hprot : is_in_top_folder e.name cfg.protectedFolders with
          | true =>
            simp [processEntry, hdir, hig, hstat, is_recent, hage, hprot] at h
            subst h
            simp [skipsEntry, movesEntry, isRecentB, hdir, hig, hstat, hage, hprot, skipOne]
          | false =>
            cases hdf : destFolder cfg.folders (classify e.name) with
            | error u =>
              simp [processEntry, hdir, hig, hstat, is_recent, hage, hprot, hdf] at h
            | ok folder =>
              cases hdry : cfg.dryRun with
              | true =>
                simp [processEntry, hdir, hig, hstat, is_recent, hage, hprot, hdf, hdry] at h
                subst h
                simp [skipsEntry, movesEntry, isRecentB, hdir, hig, hstat, hage, hprot,
                  hdry, recordMove]
              | false =>
                cases hmf : e.moveFails with
                | true =>
                  simp [processEntry, hdir, hig, hstat, is_recent, hage, hprot, hdf,
                    hdry, hmf] at h
                  subst h
                  simp [skipsEntry, movesEntry, isRecentB, hdir, hig, hstat, hage, hprot,
                    hdry, hmf]
                | false =>
                  simp [processEntry, hdir, hig, hstat, is_recent, hage, hprot, hdf,
                    hdry, hmf] at h
                  subst h
                  simp [skipsEntry, movesEntry, isRecentB, hdir, hig, hstat, hage, hprot,
                    hdry, hmf, recordMove]

/-- Counter values of a successful fold of the loop body over any entry
list: each counter is its starting value plus the number of entries the
respective predicate selects. -/
theorem scan_counts_aux (cfg : JanitorSettings) (now : Int) :
    ∀ (entries : List Entry) (acc0 accF : ScanAcc),
      List.foldlM (processEntry cfg now) acc0 entries = .ok accF →
      accF.report.skipped
          = acc0.report.skipped + (entries.filter (skipsEntry cfg now)).length ∧
      accF.report.movedCount
          = acc0.report.movedCount + (entries.filter (movesEntry cfg now)).length ∧
      accF.report.moves.length
          = acc0.report.moves.length + (entries.filter (movesEntry cfg now)).length := by
  intro entries
  induction entries with
  | nil =>
    intro acc0 accF h
    have h' : (Except.ok acc0 : Except Unit ScanAcc) = .ok accF := h
    cases h'
    simp
  | cons e rest ih =>
    intro acc0 accF h
    rw [List.foldlM_cons] at h
    cases hpe : processEntry cfg now acc0 e with
    | error u =>
      rw [hpe] at h
      have h' : (Except.error u : Except Unit ScanAcc) = .ok accF := h
      exact Except.noConfusion h'
    | ok acc1 =>
      rw [hpe] at h
      have h' : List.foldlM (processEntry cfg now) acc1 rest = .ok accF := h
      obtain ⟨p1, p2, p3⟩ := processEntry_ok_counts cfg now acc0 e acc1 hpe
      obtain ⟨g1, g2, g3⟩ := ih acc1 accF h'
      rw [g1, g2, g3, p1, p2, p3]
      by_cases hs : skipsEntry cfg now e = true <;>
        by_cases hm : movesEntry cfg now e = true <;>
          simp [List.filter_cons, hs, hm] <;> omega

/-- One loop iteration compared between dry-run and live mode on the same
entry (whose live move succeeds): both modes take the same branch, the
report projections stay equal, and the dry-run iteration leaves the folder
contents untouched. -/
theorem processEntry_dry_live (cfg : JanitorSettings) (now : Int) (e : Entry)
    (hmf : e.moveFails = false) (accD accL : ScanAcc)
    (hrep : reportProj accD.report = reportProj accL.report) :
    dlRel accD.subFiles (processEntry (setDryRun cfg true) now accD e)
      (processEntry (setDryRun cfg false) now accL e) := by
  rw [reportProj, reportProj, Prod.mk.injEq, Prod.mk.injEq] at hrep
  obtain ⟨h1, h2, h3⟩ := hrep
  cases hdir : e.isDir with
  | true =>
    simp [processEntry, setDryRun, hdir, dlRel, reportProj, h1, h2, h3]
  | false =>
    cases hig : matches_any e.name cfg.ignore with
    | true =>
      simp [processEntry, setDryRun, hdir, hig, dlRel, skipOne, reportProj, h1, h2, h3]
    | false =>
      cases hstat : e.stat with
      | statError =>
        simp [processEntry, setDryRun, hdir, hig, hstat, is_recent, dlRel]
      | fileNotFound =>
        simp [processEntry, setDryRun, hdir, hig, hstat, is_recent, dlRel, skipOne,
          reportProj, h1, h2, h3]
      | ok m =>
        by_cases hage : now - m < cfg.minFileAgeSeconds
        · simp [processEntry, setDryRun, hdir, hig, hstat, is_recent, hage, dlRel,
            skipOne, reportProj, h1, h2, h3]
        · cases hprot : is_in_top_folder e.name cfg.protectedFolders with
          | true =>
            simp [processEntry, setDryRun, hdir, hig, hstat, is_recent, hage, hprot,
              dlRel, skipOne, reportProj, h1, h2, h3]
          | false =>
            cases hdf : destFolder cfg.folders (classify e.name) with
            | error u =>
              simp [processEntry, setDryRun, hdir, hig, hstat, is_recent, hage, hprot,
                hdf, dlRel]
            | ok folder =>
              simp [processEntry, setDryRun, hdir, hig, hstat, is_recent, hage, hprot,
                hdf, hmf, dlRel, recordMove, reportProj, h1, h2, h3]

/-- Fold-level dry-run/live simulation: over any entry list whose live
moves all succeed, the two folds abort together or succeed with equal
report projections, the dry-run fold never changing the folder contents. -/
theorem scan_dry_live_aux (cfg : JanitorSettings) (now : Int) :
    ∀ (entries : List Entry), (∀ e ∈ entries, e.moveFails = false) →
      ∀ (accD accL : ScanAcc) (sub0 : List (String × String)),
        accD.subFiles = sub0 →
        reportProj accD.report = reportProj accL.report →
        dlRel sub0 (List.foldlM (processEntry (setDryRun cfg true) now) accD entries)
          (List.foldlM (processEntry (setDryRun cfg false) now) accL entries) := by
  intro entries
  induction entries with
  | nil =>
    intro _ accD accL sub0 hsub hrep
    have hgoal : dlRel sub0 (Except.ok accD) (Except.ok accL) := ⟨hrep, hsub⟩
    exact hgoal
  | cons e rest ih =>
    intro hmf accD accL sub0 hsub hrep
    rw [List.foldlM_cons, List.foldlM_cons]
    have hrel := processEntry_dry_live cfg now e (hmf e (by simp)) accD accL hrep
    rw [hsub] at hrel
    cases hpD : processEntry (setDryRun cfg true) now accD e with
    | error u =>
      cases hpL : processEntry (setDryRun cfg false) now accL e with
      | error v =>
        have hgoal : dlRel sub0 (Except.error u) (Except.error v) := True.intro
        exact hgoal
      | ok aL =>
        rw [hpD, hpL] at hrel
        exact False.elim hrel
    | ok aD =>
      cases hpL : processEntry (setDryRun cfg false) now accL e with
      | error v =>
        rw [hpD, hpL] at hrel
        exact False.elim hrel
      | ok aL =>
        rw [hpD, hpL] at hrel
        obtain ⟨hrep2, hsub2⟩ := hrel
        exact ih (fun x hx => hmf x (by simp [hx])) aD aL sub0 hsub2 hrep2

theorem take_of_take_succ {α : Type} {r p : List α} {n : α}
    (h : r.take (p.length + 1) = p ++ [n]) : r.take p.length = p := by
  have h3 := congrArg (List.take p.length) h
  rw [List.take_take, Nat.min_eq_left (Nat.le_succ _)] at h3
  rw [h3]
  exact List.take_left' rfl

theorem drop_of_take_succ {α : Type} {r p : List α} {n : α}
    (h : r.take (p.length + 1) = p ++ [n]) :
    r.drop p.length = n :: r.drop (p.length + 1) := by
  conv_lhs => rw [← List.take_append_drop (p.length + 1) r, h]
  rw [List.append_assoc, List.drop_left]
  rfl

/-- Unfolding of one non-pruned, non-repository walk step. -/
theorem walkFromV_step (dirs : List (List String)) (maxDepth : Int)
    (ignoreDirs : List String) (fuel depth : Nat) (p : List String)
    (hpr : ¬(0 ≤ maxDepth ∧ maxDepth < (depth : Int)))
    (hg : ¬ (childNames dirs p).contains ".git" = true) :
    walkFromV dirs maxDepth ignoreDirs (fuel + 1) depth p
      = ((((childNames dirs p).filter (fun n => ¬ ignoreDirs.contains n)).map
            (fun n => (walkFromV dirs maxDepth ignoreDirs fuel (depth + 1) (p ++ [n])).1)).flatten,
         p :: (((childNames dirs p).filter (fun n => ¬ ignoreDirs.contains n)).map
            (fun n => (walkFromV dirs maxDepth ignoreDirs fuel (depth + 1) (p ++ [n])).2)).flatten) := by
  rw [walkFromV, if_neg hpr, if_neg hg]
  simp [List.map_map, Function.comp_def]

/-- Every path the walk reports or visits extends the starting path. -/
theorem walkFromV_extends (dirs : List (List String)) (maxDepth : Int)
    (ignoreDirs : List String) :
    ∀ (fuel depth : Nat) (p : List String),
      (∀ r ∈ (walkFromV dirs maxDepth ignoreDirs fuel depth p).1,
        p.length ≤ r.length ∧ r.take p.length = p) ∧
      (∀ v ∈ (walkFromV dirs maxDepth ignoreDirs fuel depth p).2,
        p.length ≤ v.length ∧ v.take p.length = p) := by
  intro fuel
  induction fuel with
  | zero =>
    intro depth p
    simp [walkFromV]
  | succ fuel ih =>
    intro depth p
    by_cases hpr : 0 ≤ maxDepth ∧ maxDepth < (depth : Int)
    · simp [walkFromV, hpr, List.take_length]
    · by_cases hg : (childNames dirs p).contains ".git" = true
      · have hg2 : ".git" ∈ childNames dirs p := by simpa using hg
        simp [walkFromV, hpr, hg2, List.take_length]
      · have hw := walkFromV_step dirs maxDepth ignoreDirs fuel depth p hpr hg
        constructor
        · intro r hr
          rw [hw] at hr
          obtain ⟨l, hl, hxl⟩ := List.mem_flatten.mp hr
          obtain ⟨n, hn, rfl⟩ := List.mem_map.mp hl
          obtain ⟨hlen, htake⟩ := (ih (depth + 1) (p ++ [n])).1 r hxl
          simp only [List.length_append, List.length_singleton] at hlen htake
          exact ⟨by omega, take_of_take_succ htake⟩
        · intro v hv
          rw [hw] at hv
          rcases List.mem_cons.mp hv with rfl | hv2
          · simp [List.take_length]
          · obtain ⟨l, hl, hxl⟩ := List.mem_flatten.mp hv2
            obtain ⟨n, hn, rfl⟩ := List.mem_map.mp hl
            obtain ⟨hlen, htake⟩ := (ih (depth + 1) (p ++ [n])).2 v hxl
            simp only [List.length_append, List.length_singleton] at hlen htake
            exact ⟨by omega, take_of_take_succ htake⟩

/-- The walk never visits a directory strictly below a recorded repository
root: once a directory is recorded, its `dirnames` are cleared and nothing
beneath it is listed. -/
theorem walkFromV_no_descent (dirs : List (List String)) (maxDepth : Int)
    (ignoreDirs : List String) :
    ∀ (fuel depth : Nat) (p : List String),
      ∀ r ∈ (walkFromV dirs maxDepth ignoreDirs fuel depth p).1,
        ∀ v ∈ (walkFromV dirs maxDepth ignoreDirs fuel depth p).2,
          ¬ isAncestor r v := by
  intro fuel
  induction fuel with
  | zero =>
    intro depth p
    simp [walkFromV]
  | succ fuel ih =>
    intro depth p
    by_cases hpr : 0 ≤ maxDepth ∧ maxDepth < (depth : Int)
    · simp [walkFromV, hpr]
    · by_cases hg : (childNames dirs p).contains ".git" = true
      · have hg2 : ".git" ∈ childNames dirs p := by simpa using hg
        simp [walkFromV, hpr, hg2, isAncestor]
      · have hw := walkFromV_step dirs maxDepth ignoreDirs fuel depth p hpr hg
        intro r hr v hv
        rw [hw] at hr hv
        obtain ⟨l, hl, hrl⟩ := List.mem_flatten.mp hr
        obtain ⟨ni, hni, rfl⟩ := List.mem_map.mp hl
        obtain ⟨hrlen, hrtake⟩ :=
          (walkFromV_extends dirs maxDepth ignoreDirs fuel (depth + 1) (p ++ [ni])).1 r hrl
        simp only [List.length_append, List.length_singleton] at hrlen hrtake
        rcases List.mem_cons.mp hv with rfl | hv2
        · rintro ⟨hlt, -⟩
          omega
        · obtain ⟨l2, hl2, hvl⟩ := List.mem_flatten.mp hv2
          obtain ⟨nj, hnj, rfl⟩ := List.mem_map.mp hl2
          obtain ⟨hvlen, hvtake⟩ :=
            (walkFromV_extends dirs maxDepth ignoreDirs fuel (depth + 1) (p ++ [nj])).2 v hvl
          simp only [List.length_append, List.length_singleton] at hvlen hvtake
          rintro ⟨hlt, htk⟩
          have h1 : (v.take r.length).take (p.length + 1) = v.take (p.length + 1) := by
            rw [List.take_take, Nat.min_eq_left hrlen]
          have h2 : v.take (p.length + 1) = r.take (p.length + 1) := by
            rw [← h1, htk]
          have hnij : p ++ [nj] = p ++ [ni] := by
            rw [← hvtake, h2, hrtake]
          have hee : nj = ni := by
            have h3 := List.append_cancel_left hnij
            simpa using h3
          subst hee
          exact ih (depth + 1) (p ++ [nj]) r hrl v hvl ⟨hlt, htk⟩

/-- With a non-negative `max_depth`, the walk records repositories only up
to that depth and lists directories only up to one level beyond it (a
directory at depth `max_depth + 1` is visited just to be pruned). -/
theorem walkFromV_depth (dirs : List (List String)) (maxDepth : Int)
    (ignoreDirs : List String) (hmd : 0 ≤ maxDepth) :
    ∀ (fuel depth : Nat) (p : List String), p.length = depth →
      (depth : Int) ≤ maxDepth + 1 →
      (∀ r ∈ (walkFromV dirs maxDepth ignoreDirs fuel depth p).1,
        (r.length : Int) ≤ maxDepth) ∧
      (∀ v ∈ (walkFromV dirs maxDepth ignoreDirs fuel depth p).2,
        (v.length : Int) ≤ maxDepth + 1) := by
  intro fuel
  induction fuel with
  | zero =>
    intro depth p _ _
    simp [walkFromV]
  | succ fuel ih =>
    intro depth p hdp hdep
    by_cases hpr : 0 ≤ maxDepth ∧ maxDepth < (depth : Int)
    · refine ⟨by simp [walkFromV, hpr], ?_⟩
      intro v hv
      simp [walkFromV, hpr] at hv
      subst hv
      rw [hdp]
      omega
    · have hle : (depth : Int) ≤ maxDepth := by
        rw [not_and] at hpr
        exact not_lt.mp (hpr hmd)
      by_cases hg : (childNames dirs p).contains ".git" = true
      · have hg2 : ".git" ∈ childNames dirs p := by simpa using hg
        constructor
        · intro r hr
          simp [walkFromV, hpr, hg2] at hr
          subst hr
          rw [hdp]
          omega
        · intro v hv
          simp [walkFromV, hpr, hg2] at hv
          subst hv
          rw [hdp]
          omega
      · have hw := walkFromV_step dirs maxDepth ignoreDirs fuel depth p hpr hg
        constructor
        · intro r hr
          rw [hw] at hr
          obtain ⟨l, hl, hrl⟩ := List.mem_flatten.mp hr
          obtain ⟨ni, hni, rfl⟩ := List.mem_map.mp hl
          exact (ih (depth + 1) (p ++ [ni]) (by simp [hdp]) (by omega)).1 r hrl
        · intro v hv
          rw [hw] at hv
          rcases List.mem_cons.mp hv with rfl | hv2
          · rw [hdp]
            omega
          · obtain ⟨l, hl, hvl⟩ := List.mem_flatten.mp hv2
            obtain ⟨ni, hni, rfl⟩ := List.mem_map.mp hl
            exact (ih (depth + 1) (p ++ [ni]) (by simp [hdp]) (by omega)).2 v hvl

/-- Below the starting path, every component of a recorded repository path
was kept by the ignore filter. -/
theorem walkFromV_ignore (dirs : List (List String)) (maxDepth : Int)
    (ignoreDirs : List String) :
    ∀ (fuel depth : Nat) (p : List String),
      ∀ r ∈ (walkFromV dirs maxDepth ignoreDirs fuel depth p).1,
        ∀ n ∈ r.drop p.length, n ∉ ignoreDirs := by
  intro fuel
  induction fuel with
  | zero =>
    intro depth p
    simp [walkFromV]
  | succ fuel ih =>
    intro depth p
    by_cases hpr : 0 ≤ maxDepth ∧ maxDepth < (depth : Int)
    · simp [walkFromV, hpr]
    · by_cases hg : (childNames dirs p).contains ".git" = true
      · have hg2 : ".git" ∈ childNames dirs p := by simpa using hg
        intro r hr
        simp [walkFromV, hpr, hg2] at hr
        subst hr
        simp
      · have hw := walkFromV_step dirs maxDepth ignoreDirs fuel depth p hpr hg
        intro r hr m hm
        rw [hw] at hr
        obtain ⟨l, hl, hrl⟩ := List.mem_flatten.mp hr
        obtain ⟨ni, hni, rfl⟩ := List.mem_map.mp hl
        obtain ⟨hrlen, hrtake⟩ :=
          (walkFromV_extends dirs maxDepth ignoreDirs fuel (depth + 1) (p ++ [ni])).1 r hrl
        simp only [List.length_append, List.length_singleton] at hrlen hrtake
        rw [drop_of_take_succ hrtake] at hm
        rcases List.mem_cons.mp hm with rfl | hm2
        · have hcond := (List.mem_filter.mp hni).2
          simpa using hcond
        · have hrec := ih (depth + 1) (p ++ [ni]) r hrl m
          apply hrec
          simpa using hm2

/-! ## Claims -/

/-- C8: classification is a total, pure, deterministic function of the
lowercased extension: every extension string (empty and unknown ones
included) is assigned exactly one category of the closed eight-element set,
"other" being the default; extensions equal up to letter case classify
identically; and "photo.JPG" classifies as "images". -/
theorem C8_classification_total :
    (∀ ext : String, categoryOfExt ext ∈ categories) ∧
    (∀ e1 e2 : String, strLower e1 = strLower e2 → categoryOfExt e1 = categoryOfExt e2) ∧
    classify "photo.JPG" = "images" := by
  refine ⟨?_, ?_, by decide⟩
  · intro ext
    simp only [categoryOfExt, categories]
    split_ifs <;> decide
  · intro e1 e2 h
    simp only [categoryOfExt, h]

/-- Witness for C8 at concrete extensions. -/
theorem C8_classification_total_witness :
    categoryOfExt "JPG" ∈ categories ∧ categoryOfExt "JPG" = categoryOfExt "jpg" :=
  ⟨C8_classification_total.1 "JPG", C8_classification_total.2.1 "JPG" "jpg" (by decide)⟩

/-- C7: flag boundaries are strict inequalities — elapsed time of exactly 7
days does not set "stale>7d" (at that age the only possible flag is
"dirty+24h", which also requires a positive dirty count), elapsed time of
exactly 24 hours sets nothing; both flags co-occur comma-joined when the age
strictly exceeds 7 days and the dirty count is positive; and a null
last-push timestamp always renders as a dash. -/
theorem C7_flag_boundaries :
    (∀ (st : RepoStatus) (t : Int), st.lastPushAt = some t →
      build_flags st (t + 604800) = (if 0 < st.dirtyCount then "dirty+24h" else "-")) ∧
    (∀ (st : RepoStatus) (t : Int), st.lastPushAt = some t →
      build_flags st (t + 86400) = "-") ∧
    (∀ (st : RepoStatus) (t now : Int), st.lastPushAt = some t → 604800 < now - t →
      0 < st.dirtyCount → build_flags st now = "stale>7d, dirty+24h") ∧
    (∀ (st : RepoStatus) (now : Int), st.lastPushAt = none → build_flags st now = "-") := by
  refine ⟨?_, ?_, ?_, ?_⟩
  · intro st t h
    rw [build_flags_some st t (t + 604800) h]
    have h1 : ¬ 604800 < t + 604800 - t := by omega
    have h2 : 86400 < t + 604800 - t := by omega
    simp [h1, h2]
  · intro st t h
    rw [build_flags_some st t (t + 86400) h]
    have h1 : ¬ 604800 < t + 86400 - t := by omega
    have h2 : ¬ 86400 < t + 86400 - t := by omega
    simp [h1, h2]
  · intro st t now h h7 hd
    rw [build_flags_some st t now h]
    simp [h7, hd]
  · intro st now h
    simp [build_flags, h]

/-- Witness for C7 at concrete instants: exactly 7 days with a dirty count
of 3, exactly 24 hours, strictly over 7 days, and a null timestamp. -/
theorem C7_flag_boundaries_witness :
    build_flags ⟨"p", "main", "x", some 0, 3⟩ 604800 = "dirty+24h" ∧
    build_flags ⟨"p", "main", "x", some 0, 3⟩ 86400 = "-" ∧
    build_flags ⟨"p", "main", "x", some 0, 3⟩ 604801 = "stale>7d, dirty+24h" ∧
    build_flags ⟨"p", "main", "x", none, 3⟩ 604800 = "-" := by
  refine ⟨?_, ?_, ?_, ?_⟩
  · have := C7_flag_boundaries.1 ⟨"p", "main", "x", some 0, 3⟩ 0 rfl
    simpa using this
  · have := C7_flag_boundaries.2.1 ⟨"p", "main", "x", some 0, 3⟩ 0 rfl
    simpa using this
  · exact C7_flag_boundaries.2.2.1 ⟨"p", "main", "x", some 0, 3⟩ 0 604801 rfl
      (by norm_num) (by norm_num)
  · exact C7_flag_boundaries.2.2.2 ⟨"p", "main", "x", none, 3⟩ 604800 rfl

/-- C2 counterexample: with one enabled worker whose `run_forever` raises,
the liveness poll finds zero live workers and the process terminates with
exit status 0 — a success status, not the non-success exit status the claim
asserts — although the crash itself was logged. -/
theorem C2_counterexample :
    superviseOutcome [⟨"downloads_janitor", true⟩]
      = (["Feature crashed: downloads_janitor", "All features stopped. Exiting."], 0) ∧
    ¬ (superviseOutcome [⟨"downloads_janitor", true⟩]).2 ≠ 0 := by
  decide

/-- C2 amended: when the liveness poll finds that zero workers remain
alive, the process terminates with exit status 0 (success), after logging
"All features stopped. Exiting." at error level; each worker whose
`run_forever` raised had its crash logged individually with its feature
key. -/
theorem C2_supervisor_exit (ws : List Worker) :
    (superviseOutcome ws).2 = 0 ∧
    "All features stopped. Exiting." ∈ (superviseOutcome ws).1 ∧
    (∀ w ∈ ws, w.crashes = true →
      ("Feature crashed: " ++ w.key) ∈ (superviseOutcome ws).1) := by
  refine ⟨rfl, by simp [superviseOutcome], ?_⟩
  intro w hw hc
  simp only [superviseOutcome, List.mem_append]
  left
  rw [List.mem_flatten]
  exact ⟨run_feature_worker w, List.mem_map_of_mem _ hw, by simp [run_feature_worker, hc]⟩

/-- Witness for C2 at a concrete worker list. -/
theorem C2_supervisor_exit_witness :
    (superviseOutcome [⟨"dev_git_overview", true⟩]).2 = 0 ∧
    ("Feature crashed: " ++ "dev_git_overview")
      ∈ (superviseOutcome [⟨"dev_git_overview", true⟩]).1 :=
  ⟨(C2_supervisor_exit [⟨"dev_git_overview", true⟩]).1,
   (C2_supervisor_exit [⟨"dev_git_overview", true⟩]).2.2 ⟨"dev_git_overview", true⟩
     (by decide) rfl⟩

/-- C4 counterexample: with an upstream configured, a reflog whose query
succeeded but contains no push-tagged entry, and a failed tip-date query,
the result is ("unknown", null) although not every sub-query failed — the
reflog sub-query succeeded — so "unknown exactly when every sub-query
fails" is false. -/
theorem C4_counterexample :
    resolve_last_push (fun _ => none) (some "origin/main")
      (some "2024-01-01T00:00:00+00:00|commit: tweak") none = ("unknown", none) ∧
    (some "2024-01-01T00:00:00+00:00|commit: tweak" : Option String) ≠ none := by
  decide

/-- C4 amended: precedence is — the first (newest) push-tagged reflog entry
wins; otherwise a non-empty tip-date output wins; "no upstream" with a null
timestamp is reported whenever the upstream query fails; and, provided git
never prints the literal string "unknown" as a timestamp, the result is
("unknown", null) exactly when the upstream exists, no reflog line is
push-tagged (the reflog query failing or returning empty output included),
and the tip-date query fails or returns empty output. -/
theorem C4_last_push_resolution (parse : String → Option Int)
    (u reflog tip : Option String) :
    (u = none → resolve_last_push parse u reflog tip = ("no upstream", none)) ∧
    (∀ s w, u = some s → reflogPush reflog = some w →
      resolve_last_push parse u reflog tip = (w, parse w)) ∧
    (∀ s d, u = some s → reflogPush reflog = none → tip = some d → d ≠ "" →
      resolve_last_push parse u reflog tip = (d, parse d)) ∧
    (∀ s, u = some s →
      (∀ w, reflogPush reflog = some w → w ≠ "unknown") →
      tip ≠ some "unknown" →
      (resolve_last_push parse u reflog tip = ("unknown", none) ↔
        reflogPush reflog = none ∧ (tip = none ∨ tip = some ""))) := by
  refine ⟨?_, ?_, ?_, ?_⟩
  · rintro rfl
    rfl
  · rintro s w rfl hr
    simp [resolve_last_push, hr]
  · rintro s d rfl hr rfl hd
    simp [resolve_last_push, hr, hd]
  · rintro s rfl hw htip
    constructor
    · intro heq
      cases hr : reflogPush reflog with
      | some w =>
        rw [show resolve_last_push parse (some s) reflog tip = (w, parse w) from by
          simp [resolve_last_push, hr]] at heq
        exact absurd (congrArg Prod.fst heq) (hw w hr)
      | none =>
        refine ⟨rfl, ?_⟩
        cases tip with
        | none => exact Or.inl rfl
        | some d =>
          by_cases hd : d = ""
          · exact Or.inr (by rw [hd])
          · exfalso
            simp [resolve_last_push, hr, hd] at heq
            exact htip (by rw [heq.1])
    · rintro ⟨hr, htip2⟩
      rcases htip2 with rfl | rfl
      · simp [resolve_last_push, hr]
      · simp [resolve_last_push, hr]

/-- Witness for C4: upstream present and both remaining sub-queries failed
gives ("unknown", null). -/
theorem C4_last_push_resolution_witness :
    resolve_last_push (fun _ => none) (some "origin/main") none none = ("unknown", none) :=
  ((C4_last_push_resolution (fun _ => none) (some "origin/main") none none).2.2.2
      "origin/main" rfl (fun w hw => by simp [reflogPush] at hw) (by decide)).mpr
    ⟨rfl, Or.inl rfl⟩

/-- C5: unique-path resolution returns a name that does not exist in the
destination directory at the time of computation; a free plain name is kept
as is; and on a collision the result is `stem (i)suffix` for some `i ≥ 2`
below which every candidate index is taken — the lowest-numbered free
suffix. -/
theorem C5_unique_target_path (existing : List String) (filename : String) :
    unique_target_path existing filename ∉ existing ∧
    (filename ∉ existing → unique_target_path existing filename = filename) ∧
    (filename ∈ existing → ∃ i, 2 ≤ i ∧
      unique_target_path existing filename
        = altName (path_stem filename) (path_suffix filename) i ∧
      ∀ j, 2 ≤ j → j < i →
        altName (path_stem filename) (path_suffix filename) j ∈ existing) := by
  obtain ⟨h1, h2, h3⟩ := unique_target_path_spec existing filename
  refine ⟨h1, h2, fun hm => ?_⟩
  obtain ⟨i, hi, he, _, hmin⟩ := h3 hm
  exact ⟨i, hi, he, hmin⟩

/-- Witness for C5: two pre-existing collisions yield the suffix (3), and a
free plain name is kept. -/
theorem C5_unique_target_path_witness :
    unique_target_path ["report.pdf", "report (2).pdf"] "report.pdf"
      ∉ ["report.pdf", "report (2).pdf"] ∧
    unique_target_path ["report.pdf"] "photo.jpg" = "photo.jpg" :=
  ⟨(C5_unique_target_path ["report.pdf", "report (2).pdf"] "report.pdf").1,
   (C5_unique_target_path ["report.pdf"] "photo.jpg").2.1 (by decide)⟩

/-- C3 counterexample: a single entry whose metadata read fails for a
reason other than file-not-found (e.g. permissions deny the stat) is not
skipped — the exception propagates out of `_scan_once` and the scan aborts
with no report, so the age check is not total over all metadata-read
failures. -/
theorem C3_counterexample :
    scan_once ⟨60, false, [], [], defaultFolders⟩ 1000
      [⟨"report.pdf", false, .statError, false⟩] [] = .error () := by
  decide

/-- C3 amended: only a metadata-read failure of the file-not-found kind
(`FileNotFoundError`, e.g. the file was removed mid-scan) is treated as too
recent and skipped; a metadata-read failure of any other kind (e.g.
permissions deny the stat) raises an exception that propagates out of the
scan and aborts it. -/
theorem C3_metadata_failures (cfg : JanitorSettings) (now : Int) (acc : ScanAcc) (e : Entry)
    (hdir : e.isDir = false) (hign : matches_any e.name cfg.ignore = false) :
    (e.stat = .fileNotFound → processEntry cfg now acc e = .ok (skipOne acc)) ∧
    (e.stat = .statError → processEntry cfg now acc e = .error ()) := by
  constructor <;> intro hstat <;> simp [processEntry, hdir, hign, is_recent, hstat]

/-- Witness for C3: a vanished file is skipped, a permission-style stat
failure aborts. -/
theorem C3_metadata_failures_witness :
    processEntry ⟨60, false, [], [], defaultFolders⟩ 1000 ⟨[], ⟨0, 0, []⟩⟩
        ⟨"gone.pdf", false, .fileNotFound, false⟩
      = .ok (skipOne ⟨[], ⟨0, 0, []⟩⟩) ∧
    processEntry ⟨60, false, [], [], defaultFolders⟩ 1000 ⟨[], ⟨0, 0, []⟩⟩
        ⟨"locked.pdf", false, .statError, false⟩ = .error () :=
  ⟨(C3_metadata_failures ⟨60, false, [], [], defaultFolders⟩ 1000 ⟨[], ⟨0, 0, []⟩⟩
      ⟨"gone.pdf", false, .fileNotFound, false⟩ rfl (by decide)).1 rfl,
   (C3_metadata_failures ⟨60, false, [], [], defaultFolders⟩ 1000 ⟨[], ⟨0, 0, []⟩⟩
      ⟨"locked.pdf", false, .statError, false⟩ rfl (by decide)).2 rfl⟩

/-- C10: the scan has the unstated precondition that the category-to-folder
map contains the key "other": Python evaluates the eager default argument
`cfg.folders["other"]`, so when "other" is absent the destination lookup of
any file that reaches classification raises `KeyError` and the whole scan
cycle aborts (the entry is not skipped); the default settings do satisfy
the precondition. -/
theorem C10_missing_other_key (cfg : JanitorSettings) (now : Int)
    (subFiles : List (String × String)) (e : Entry) (rest : List Entry)
    (hother : List.lookup "other" cfg.folders = none)
    (hdir : e.isDir = false) (hign : matches_any e.name cfg.ignore = false)
    (hrec : is_recent e.stat now cfg.minFileAgeSeconds = .ok false)
    (hprot : is_in_top_folder e.name cfg.protectedFolders = false) :
    scan_once cfg now (e :: rest) subFiles = .error () ∧
    List.lookup "other" defaultFolders = some "Other" := by
  constructor
  · have hpe : processEntry cfg now ⟨subFiles, ⟨0, 0, []⟩⟩ e = .error () := by
      simp [processEntry, hdir, hign, hrec, hprot, destFolder, hother]
    rw [scan_once, List.foldlM_cons, hpe]
    rfl
  · decide

/-- Witness for C10: a PDF arriving while the folders map lacks both "docs"
and "other" aborts the scan; the default map has "other". -/
theorem C10_missing_other_key_witness :
    scan_once ⟨60, false, [], [], [("images", "Images")]⟩ 1000
      [⟨"report.pdf", false, .ok 0, false⟩] [] = .error () ∧
    List.lookup "other" defaultFolders = some "Other" :=
  C10_missing_other_key ⟨60, false, [], [], [("images", "Images")]⟩ 1000 []
    ⟨"report.pdf", false, .ok 0, false⟩ [] (by decide) rfl (by decide) (by decide) (by decide)

/-- C9: in a completed scan, `skipped` counts exactly the non-directory
entries caught by the ignore-pattern, minimum-age and protected-folder
checks, and `moved_count` counts exactly the remaining non-directory entries
whose move is counted (every such entry in dry-run mode, only those whose
move does not fail in live mode), with one move record per counted move;
directory entries satisfy neither predicate, and an entry that reaches the
move step in live mode but whose move fails satisfies neither predicate, so
both are counted in neither counter. -/
theorem C9_skipped_count (cfg : JanitorSettings) (now : Int) (entries : List Entry)
    (subFiles : List (String × String)) (acc : ScanAcc)
    (h : scan_once cfg now entries subFiles = .ok acc) :
    (acc.report.skipped = (entries.filter (skipsEntry cfg now)).length ∧
     acc.report.movedCount = (entries.filter (movesEntry cfg now)).length ∧
     acc.report.moves.length = acc.report.movedCount) ∧
    (∀ e : Entry, e.isDir = true →
      skipsEntry cfg now e = false ∧ movesEntry cfg now e = false) ∧
    (∀ e : Entry, e.isDir = false → matches_any e.name cfg.ignore = false →
      isRecentB e.stat now cfg.minFileAgeSeconds = false →
      is_in_top_folder e.name cfg.protectedFolders = false →
      cfg.dryRun = false → e.moveFails = true →
      skipsEntry cfg now e = false ∧ movesEntry cfg now e = false) := by
  refine ⟨?_, ?_, ?_⟩
  · obtain ⟨g1, g2, g3⟩ := scan_counts_aux cfg now entries ⟨subFiles, ⟨0, 0, []⟩⟩ acc h
    simp only [List.length_nil, Nat.zero_add] at g1 g2 g3
    exact ⟨g1, g2, by rw [g3, g2]⟩
  · intro e hd
    simp [skipsEntry, movesEntry, hd]
  · intro e h1 h2 h3 h4 h5 h6
    simp [skipsEntry, movesEntry, h1, h2, h3, h4, h5, h6]

/-- Witness for C9 at the concrete scan of `entsC9` under `cfgC9`. -/
theorem C9_skipped_count_witness :
    accC9.report.skipped = (entsC9.filter (skipsEntry cfgC9 1000)).length ∧
    accC9.report.movedCount = (entsC9.filter (movesEntry cfgC9 1000)).length :=
  ⟨((C9_skipped_count cfgC9 1000 entsC9 [] accC9 (by decide)).1).1,
   ((C9_skipped_count cfgC9 1000 entsC9 [] accC9 (by decide)).1).2.1⟩

/-- C1 counterexample: on a root holding "a.txt" and "a (2).txt" while the
Docs folder already holds "a.txt", the dry-run report is not identical to
the live report — the live run's first move creates a collision that sends
the second file to "a (2) (2).txt", while the dry run reports "a (2).txt"
for both — although every live move succeeds. -/
theorem C1_counterexample :
    (scan_once (setDryRun cfgC1 true) 0 entsC1 [("Docs", "a.txt")]).map
        (fun a => a.report)
      ≠ (scan_once (setDryRun cfgC1 false) 0 entsC1 [("Docs", "a.txt")]).map
        (fun a => a.report) := by
  decide

/-- C1 amended: on the same initial state, when every live move succeeds,
the dry-run scan produces the same moved count, the same skipped count and
the same source-file sequence as the live scan (and both abort together),
while performing zero filesystem mutations; only the destination paths
inside the move records may differ, since a live move can create a
collision that a later unique-path resolution must avoid. -/
theorem C1_dry_run_report (cfg : JanitorSettings) (now : Int) (entries : List Entry)
    (subFiles : List (String × String)) (hmf : ∀ e ∈ entries, e.moveFails = false) :
    (scan_once (setDryRun cfg true) now entries subFiles).map
        (fun a => reportProj a.report)
      = (scan_once (setDryRun cfg false) now entries subFiles).map
        (fun a => reportProj a.report) ∧
    (∀ acc, scan_once (setDryRun cfg true) now entries subFiles = .ok acc →
      acc.subFiles = subFiles) := by
  have hrel : dlRel subFiles (scan_once (setDryRun cfg true) now entries subFiles)
      (scan_once (setDryRun cfg false) now entries subFiles) :=
    scan_dry_live_aux cfg now entries hmf ⟨subFiles, ⟨0, 0, []⟩⟩ ⟨subFiles, ⟨0, 0, []⟩⟩
      subFiles rfl rfl
  constructor
  · cases hD : scan_once (setDryRun cfg true) now entries subFiles with
    | error u =>
      cases hL : scan_once (setDryRun cfg false) now entries subFiles with
      | error v => simp
      | ok aL =>
        rw [hD, hL] at hrel
        exact False.elim hrel
    | ok aD =>
      cases hL : scan_once (setDryRun cfg false) now entries subFiles with
      | error v =>
        rw [hD, hL] at hrel
        exact False.elim hrel
      | ok aL =>
        rw [hD, hL] at hrel
        exact congrArg Except.ok hrel.1
  · intro acc hD
    rw [hD] at hrel
    cases hL : scan_once (setDryRun cfg false) now entries subFiles with
    | error v =>
      rw [hL] at hrel
      exact False.elim hrel
    | ok aL =>
      rw [hL] at hrel
      exact hrel.2

/-- Witness for C1: on the colliding two-file state the projections agree
and the dry run leaves the folder contents unchanged. -/
theorem C1_dry_run_report_witness :
    (scan_once (setDryRun cfgC1 true) 0 entsC1 [("Docs", "a.txt")]).map
        (fun a => reportProj a.report)
      = (scan_once (setDryRun cfgC1 false) 0 entsC1 [("Docs", "a.txt")]).map
        (fun a => reportProj a.report) :=
  (C1_dry_run_report cfgC1 0 entsC1 [("Docs", "a.txt")] (by decide)).1

/-- C6: discovery never lists the contents of any directory strictly below
a recorded repository root; with a non-negative `max_depth` every recorded
repository lies at depth at most `max_depth` and every directory the walk
lists lies at depth at most `max_depth + 1` (a directory one past the bound
is visited only to be pruned, never descended into); and no component of a
recorded repository path is a name from `ignore_dirs`, those subdirectories
having been removed from the descent set. -/
theorem C6_discovery (dirs : List (List String)) (maxDepth : Int)
    (ignoreDirs : List String) :
    (∀ r ∈ discover_repositories dirs maxDepth ignoreDirs,
      ∀ v ∈ visitedDirs dirs maxDepth ignoreDirs, ¬ isAncestor r v) ∧
    (0 ≤ maxDepth →
      (∀ r ∈ discover_repositories dirs maxDepth ignoreDirs,
        (r.length : Int) ≤ maxDepth) ∧
      (∀ v ∈ visitedDirs dirs maxDepth ignoreDirs,
        (v.length : Int) ≤ maxDepth + 1)) ∧
    (∀ r ∈ discover_repositories dirs maxDepth ignoreDirs, ∀ n ∈ r, n ∉ ignoreDirs) := by
  refine ⟨?_, ?_, ?_⟩
  · exact walkFromV_no_descent dirs maxDepth ignoreDirs (maxPathLen dirs + 1) 0 []
  · intro hmd
    exact walkFromV_depth dirs maxDepth ignoreDirs hmd (maxPathLen dirs + 1) 0 [] rfl
      (by omega)
  · intro r hr n hn
    exact walkFromV_ignore dirs maxDepth ignoreDirs (maxPathLen dirs + 1) 0 [] r hr n
      (by simpa using hn)

/-- Witness for C6 on the concrete tree `dirsW` with `max_depth = 2` and
`ignore_dirs = ["nm"]`. -/
theorem C6_discovery_witness :
    (∀ r ∈ discover_repositories dirsW 2 ["nm"], (r.length : Int) ≤ 2) ∧
    (∀ r ∈ discover_repositories dirsW 2 ["nm"], ∀ n ∈ r, n ∉ ["nm"]) ∧
    discover_repositories dirsW 2 ["nm"] = [["a"], ["d", "e"]] :=
  ⟨((C6_discovery dirsW 2 ["nm"]).2.1 (by norm_num)).1,
   (C6_discovery dirsW 2 ["nm"]).2.2, by decide⟩

end ToolAlfred
